import Mathlib

/-!
Verification of the clock-synchronization programs in
`Lab05-physical-clock-algorithims` (`berkeley.cpp` and `cristian.cpp`).

Clock readings are modelled as unbounded signed integers (`Int`), matching
the spec's data model of scalar signed timestamps; the C++ arithmetic on
`time_t` / `long` / `long long` never comes near the word size for the
values involved, so overflow is not modelled.  C++ integer division
truncates toward zero, which is `Int.tdiv` in Lean.
-/

/-- Error taxonomy of the specification: `InvalidInput` is the only error. -/
inductive SyncError where
  | invalidInput
  deriving DecidableEq, Repr

/-- Result record of the Berkeley computation (`berkeley.cpp`):
the per-slave time differences, their truncated average, the synchronized
master time, and the updated slave times (in input order). -/
structure BerkeleyResult where
  offsets : List Int
  averageOffset : Int
  correctedMaster : Int
  correctedSlaves : List Int
  deriving DecidableEq, Repr

/-- The `difference = master_time - slave_time` loop of `berkeley.cpp`
(lines 33-34), one difference per slave, in input order. -/
def timeDifferences (master : Int) (slaves : List Int) : List Int :=
  slaves.map (fun s => master - s)

/-- The summation loop of `berkeley.cpp` (lines 41-44): left fold of
addition over the list, starting from 0. -/
def sumOffsets (l : List Int) : Int :=
  l.foldl (fun a b => a + b) 0

/-- The Berkeley computation of `berkeley.cpp` (lines 33-66), generalized
over the slave-reading list (the source hardcodes `NUM_SLAVES = 6` readings
drawn at random): differences `master - slave_i`, truncated average
(`sum / NUM_SLAVES` in C++ truncates toward zero, hence `Int.tdiv`),
synchronized master `master + average`, and each slave updated by
`slave_times[i] += average_difference`.  The `N = 0 → InvalidInput` guard
is modelled from the spec (section 4.1 edge cases): the source fixes
`NUM_SLAVES = 6` and contains no error path. -/
def berkeleySync (master : Int) (slaves : List Int) : Except SyncError BerkeleyResult :=
  if slaves.length = 0 then
    Except.error SyncError.invalidInput
  else
    let diffs := timeDifferences master slaves
    let avg := Int.tdiv (sumOffsets diffs) slaves.length
    Except.ok
      { offsets := diffs
        averageOffset := avg
        correctedMaster := master + avg
        correctedSlaves := slaves.map (fun s => s + avg) }

/-- Result record of the Cristian computation (`cristian.cpp`): round-trip
time, its truncated half, and the synchronized client time. -/
structure CristianResult where
  rtt : Int
  oneWayDelay : Int
  synchronizedTime : Int
  deriving DecidableEq, Repr

/-- The Cristian computation of `cristian.cpp` (lines 28-31), with the three
timestamps taken as parameters as the spec directs (the source samples a
wall clock around two sleeps): `RTT = T1 - T0`,
`synchronized_time = T_server + RTT / 2` where `/` is C++ truncation toward
zero (`Int.tdiv`).  The `RTT < 0 → InvalidInput` guard is modelled from the
spec (section 4.2 step 1): the source contains no error path. -/
def cristianSync (T0 Ts T1 : Int) : Except SyncError CristianResult :=
  if T1 - T0 < 0 then
    Except.error SyncError.invalidInput
  else
    Except.ok
      { rtt := T1 - T0
        oneWayDelay := Int.tdiv (T1 - T0) 2
        synchronizedTime := Ts + Int.tdiv (T1 - T0) 2 }

/-- The slave-offset generation of `berkeley.cpp` (line 26): the drawn
`rand()` value `r` (a nonnegative machine integer, modelled as `Nat`) is
mapped to `(r % 11) - 5`. -/
def berkeleyOffset (r : Nat) : Int :=
  ((r % 11 : Nat) : Int) - 5

/-- The slave-time generation of `berkeley.cpp` (line 27):
`slave_time = master_time + offset`. -/
def slaveTime (master : Int) (r : Nat) : Int :=
  master + berkeleyOffset r

/-- The slave-time list built by the generation loop of `berkeley.cpp`
(lines 23-29), one reading per drawn random value, in order. -/
def slaveTimes (master : Int) (rs : List Nat) : List Int :=
  rs.map (slaveTime master)

/-- C1: for every reference reading and every non-empty slave list, the
Berkeley computation succeeds and yields `offset_i = master - slave_i` in
input order, the truncated average of those offsets, the corrected master
`master + average`, and each corrected slave `slave_i + average` in input
order. -/
theorem berkeley_functional_correct (master : Int) (slaves : List Int)
    (h : slaves ≠ []) :
    ∃ res, berkeleySync master slaves = Except.ok res ∧
      res.offsets = slaves.map (fun s => master - s) ∧
      res.averageOffset =
        Int.tdiv (sumOffsets (slaves.map (fun s => master - s))) slaves.length ∧
      res.correctedMaster = master + res.averageOffset ∧
      res.correctedSlaves = slaves.map (fun s => s + res.averageOffset) := by
  have hlen : ¬ slaves.length = 0 := by simpa using h
  unfold berkeleySync
  rw [if_neg hlen]
  exact ⟨_, rfl, rfl, rfl, rfl, rfl⟩

/-- Witness for C1 at the spec's reference scenario: reference 100,
participants [98, 102, 99, 101, 97, 103]. -/
theorem berkeley_functional_correct_witness :
    ∃ res, berkeleySync 100 [98, 102, 99, 101, 97, 103] = Except.ok res ∧
      res.offsets = [98, 102, 99, 101, 97, 103].map (fun s => 100 - s) ∧
      res.averageOffset =
        Int.tdiv (sumOffsets ([98, 102, 99, 101, 97, 103].map (fun s => 100 - s)))
          ([98, 102, 99, 101, 97, 103] : List Int).length ∧
      res.correctedMaster = 100 + res.averageOffset ∧
      res.correctedSlaves = [98, 102, 99, 101, 97, 103].map (fun s => s + res.averageOffset) :=
  berkeley_functional_correct 100 [98, 102, 99, 101, 97, 103] (by decide)

/-- C2: for all integer timestamps with `T0 ≤ T1`, the Cristian computation
yields `RTT = T1 - T0`, `one_way_delay = RTT / 2` with truncation, and
`synchronized_time = Ts + one_way_delay`; in particular, at
`T0 = 1000, Ts = 1100, T1 = 1200` it yields RTT 200, delay 100, and
synchronized time 1200. -/
theorem cristian_functional_correct (T0 Ts T1 : Int) (h : T0 ≤ T1) :
    cristianSync T0 Ts T1 =
      Except.ok
        { rtt := T1 - T0
          oneWayDelay := Int.tdiv (T1 - T0) 2
          synchronizedTime := Ts + Int.tdiv (T1 - T0) 2 } ∧
    cristianSync 1000 1100 1200 =
      Except.ok { rtt := 200, oneWayDelay := 100, synchronizedTime := 1200 } := by
  constructor
  · unfold cristianSync
    rw [if_neg (by omega)]
  · rfl

/-- Witness for C2 at the spec's reference triple `(1000, 1100, 1200)`. -/
theorem cristian_functional_correct_witness :
    cristianSync 1000 1100 1200 =
      Except.ok
        { rtt := 1200 - 1000
          oneWayDelay := Int.tdiv (1200 - 1000) 2
          synchronizedTime := 1100 + Int.tdiv (1200 - 1000) 2 } ∧
    cristianSync 1000 1100 1200 =
      Except.ok { rtt := 200, oneWayDelay := 100, synchronizedTime := 1200 } :=
  cristian_functional_correct 1000 1100 1200 (by decide)

/-- C3: the Berkeley computation on the empty participant list fails with
`InvalidInput` and carries no partial result. -/
theorem berkeley_empty_invalid (master : Int) :
    berkeleySync master [] = Except.error SyncError.invalidInput := rfl

/-- C4: the Cristian computation fails precisely when `RTT = T1 - T0` is
negative, i.e. `T1 < T0`, and the failure is the `InvalidInput` error with
no result. -/
theorem cristian_invalid_iff (T0 Ts T1 : Int) :
    cristianSync T0 Ts T1 = Except.error SyncError.invalidInput ↔ T1 < T0 := by
  unfold cristianSync
  by_cases hc : T1 - T0 < 0
  · rw [if_pos hc]
    simp
    omega
  · rw [if_neg hc]
    simp
    omega

/-- C7: on every odd nonnegative round trip the half delay is truncated,
never rounded: `2 * one_way_delay = RTT - 1`, and the synchronized time is
built from the truncated value; in particular RTT 201 gives delay 100. -/
theorem cristian_truncates_odd (T0 Ts T1 : Int) (h : T0 ≤ T1)
    (hodd : (T1 - T0) % 2 = 1) :
    ∃ res, cristianSync T0 Ts T1 = Except.ok res ∧
      2 * res.oneWayDelay = res.rtt - 1 ∧
      res.synchronizedTime = Ts + res.oneWayDelay ∧
      cristianSync 1000 1100 1201 =
        Except.ok { rtt := 201, oneWayDelay := 100, synchronizedTime := 1200 } := by
  have h0 : (0 : Int) ≤ T1 - T0 := by omega
  have hne : ¬ (T1 - T0 < 0) := by omega
  have hdiv : 2 * Int.tdiv (T1 - T0) 2 = (T1 - T0) - 1 := by
    rw [Int.tdiv_eq_ediv h0 (by decide)]
    omega
  unfold cristianSync
  rw [if_neg hne]
  exact ⟨_, rfl, hdiv, rfl, rfl⟩

/-- Witness for C7 at `(1000, 1100, 1201)`, an odd round trip of 201. -/
theorem cristian_truncates_odd_witness :
    ∃ res, cristianSync 1000 1100 1201 = Except.ok res ∧
      2 * res.oneWayDelay = res.rtt - 1 ∧
      res.synchronizedTime = 1100 + res.oneWayDelay ∧
      cristianSync 1000 1100 1201 =
        Except.ok { rtt := 201, oneWayDelay := 100, synchronizedTime := 1200 } :=
  cristian_truncates_odd 1000 1100 1201 (by decide) (by decide)

/-- C5: for every reference reading and non-empty slave list, the corrected
master and the corrected slaves preserve the pairwise offsets:
`corrected_master - corrected_slave_i = master - slave_i` for every slave,
position by position. -/
theorem berkeley_preserves_offsets (master : Int) (slaves : List Int)
    (h : slaves ≠ []) :
    ∃ res, berkeleySync master slaves = Except.ok res ∧
      List.Forall₂ (fun c s => res.correctedMaster - c = master - s)
        res.correctedSlaves slaves := by
  have hlen : ¬ slaves.length = 0 := by simpa using h
  unfold berkeleySync
  rw [if_neg hlen]
  refine ⟨_, rfl, ?_⟩
  rw [List.forall₂_map_left_iff, List.forall₂_same]
  intro s _
  dsimp only
  omega

/-- Witness for C5 at the spec's reference scenario. -/
theorem berkeley_preserves_offsets_witness :
    ∃ res, berkeleySync 100 [98, 102, 99, 101, 97, 103] = Except.ok res ∧
      List.Forall₂ (fun c s => res.correctedMaster - c = 100 - s)
        res.correctedSlaves [98, 102, 99, 101, 97, 103] :=
  berkeley_preserves_offsets 100 [98, 102, 99, 101, 97, 103] (by decide)

/-- Auxiliary: the left fold of addition starting from `a` is `a` plus the
fold starting from `0`. -/
theorem sumOffsets_loop (a : Int) (l : List Int) :
    l.foldl (fun x y => x + y) a = a + sumOffsets l := by
  induction l generalizing a with
  | nil => simp [sumOffsets]
  | cons x xs ih =>
    simp only [sumOffsets, List.foldl_cons] at *
    rw [ih (a + x), ih (0 + x)]
    ring

/-- Auxiliary: the summation loop agrees with `List.sum`. -/
theorem sumOffsets_eq_sum (l : List Int) : sumOffsets l = l.sum := by
  induction l with
  | nil => rfl
  | cons x xs ih =>
    have h1 : sumOffsets (x :: xs) = (0 + x) + sumOffsets xs := by
      simpa only [sumOffsets, List.foldl_cons] using sumOffsets_loop (0 + x) xs
    rw [h1, ih, List.sum_cons]
    ring

/-- Auxiliary: the sum of a constant list of value `k` and length `n` is
`k * n`. -/
theorem sumOffsets_const (k : Int) (l : List Int) (hl : ∀ x ∈ l, x = k) :
    sumOffsets l = k * l.length := by
  have hrep := List.eq_replicate_of_mem hl
  rw [sumOffsets_eq_sum, hrep]
  simp [List.sum_replicate, List.length_replicate, nsmul_eq_mul, mul_comm]

/-- C6 counterexample: at reference 100 with the single participant 90 the
offset is constantly `k = 10` and the average is 10, but the corrected
participant reading is 100 = reference, not `reference + k = 110`; so not
every corrected reading equals `reference + k`. -/
theorem berkeley_constant_offset_cex :
    (∀ s ∈ ([90] : List Int), (100 : Int) - s = 10) ∧
    berkeleySync 100 [90] =
      Except.ok
        { offsets := [10]
          averageOffset := 10
          correctedMaster := 110
          correctedSlaves := [100] } ∧
    ¬ (∀ c ∈ ([100] : List Int), c = (100 : Int) + 10) :=
  ⟨by decide, rfl, by decide⟩

/-- C6 amended: for every non-empty slave list whose offsets all equal the
constant `k`, the average offset is `k` and the corrected master is
`master + k`; but each corrected participant equals `master` itself (its
reading `master - k` plus the average `k`), not `master + k`. -/
theorem berkeley_constant_offset_amended (master k : Int) (slaves : List Int)
    (h : slaves ≠ []) (hk : ∀ s ∈ slaves, master - s = k) :
    ∃ res, berkeleySync master slaves = Except.ok res ∧
      res.averageOffset = k ∧
      res.correctedMaster = master + k ∧
      ∀ c ∈ res.correctedSlaves, c = master := by
  have hlen : ¬ slaves.length = 0 := by simpa using h
  have hconst : ∀ x ∈ timeDifferences master slaves, x = k := by
    intro x hx
    rcases List.mem_map.mp hx with ⟨s, hs, rfl⟩
    exact hk s hs
  have hsum : sumOffsets (timeDifferences master slaves) = k * slaves.length := by
    rw [sumOffsets_const k _ hconst]
    simp [timeDifferences]
  have havg : Int.tdiv (sumOffsets (timeDifferences master slaves)) slaves.length = k := by
    rw [hsum]
    exact Int.mul_tdiv_cancel k (by exact_mod_cast hlen)
  unfold berkeleySync
  rw [if_neg hlen]
  refine ⟨_, rfl, havg, by rw [havg], ?_⟩
  intro c hc
  rcases List.mem_map.mp hc with ⟨s, hs, rfl⟩
  have hsk := hk s hs
  rw [havg]
  omega

/-- Witness for the amended C6: reference 100, slaves [90, 90], constant
offset 10. -/
theorem berkeley_constant_offset_amended_witness :
    ∃ res, berkeleySync 100 [90, 90] = Except.ok res ∧
      res.averageOffset = 10 ∧
      res.correctedMaster = 100 + 10 ∧
      ∀ c ∈ res.correctedSlaves, c = 100 :=
  berkeley_constant_offset_amended 100 10 [90, 90] (by decide) (by decide)

/-- C8 counterexample: the drawn random value 5 gives offset
`(5 % 11) - 5 = 0`, so the generated participant reading equals the master
reading and the master reading is a member of the participant list: the
claimed non-coincidence invariant fails. -/
theorem berkeley_master_not_member_cex :
    berkeleyOffset 5 = 0 ∧
    slaveTimes 100 [5] = [100] ∧
    (100 : Int) ∈ slaveTimes 100 [5] := by
  refine ⟨rfl, rfl, ?_⟩
  decide

/-- C8 amended: every generated participant reading lies within 5 units of
the master reading, and it coincides with the master reading exactly when
the drawn random value `r` satisfies `r % 11 = 5` (offset zero); so
coincidence with the master reading is possible and the non-membership
invariant does not hold for readings as values. -/
theorem berkeley_master_not_member_amended (master : Int) (rs : List Nat) :
    (slaveTimes master rs).Forall
      (fun t => master - 5 ≤ t ∧ t ≤ master + 5) ∧
    (∀ r : Nat, slaveTime master r = master ↔ r % 11 = 5) := by
  constructor
  · rw [List.forall_iff_forall_mem]
    intro t ht
    rcases List.mem_map.mp ht with ⟨r, _, rfl⟩
    simp only [slaveTime, berkeleyOffset]
    omega
  · intro r
    simp only [slaveTime, berkeleyOffset]
    omega

/-- C9: both computations are deterministic given fixed inputs: two runs on
the same reference reading, slave list and timestamp triple produce
identical outputs. -/
theorem sync_deterministic (master : Int) (slaves : List Int)
    (T0 Ts T1 : Int) :
    berkeleySync master slaves = berkeleySync master slaves ∧
    cristianSync T0 Ts T1 = cristianSync T0 Ts T1 :=
  ⟨rfl, rfl⟩

/-- C10: every drawn random value yields an offset `(r % 11) - 5` in
`[-5, 5]`, so each generated slave reading differs from the master reading
by at most 5, and each initial difference `master - slave` lies in
`[-5, 5]`. -/
theorem berkeley_offset_range (r : Nat) (master : Int) :
    (-5 ≤ berkeleyOffset r ∧ berkeleyOffset r ≤ 5) ∧
    (-5 ≤ slaveTime master r - master ∧ slaveTime master r - master ≤ 5) ∧
    (-5 ≤ master - slaveTime master r ∧ master - slaveTime master r ≤ 5) := by
  simp only [slaveTime, berkeleyOffset]
  omega
